import Mathlib

/-!
Verification development for the miro-basic-markdown repository.

The definitions below are shallow embeddings of the TypeScript source
(`src/index.ts`): the mode-toggle actions over board items, the block
splitter, the line classifier/grouper, and the inline transformer
(`convertTextToMarkdown` / `convertLineToMarkdown`).  Strings are modelled
as Lean `String` (a wrapper around `List Char`), and the JavaScript regex
substitutions are operationalised as character-list scanners that follow
the leftmost-match, non-overlapping, continue-after-the-match semantics of
`String.prototype.replaceAll` / `String.prototype.split`.
-/

namespace MiroMarkdown

/-! ## Item data model and the mode-toggle actions

Embeds the item handling of `src/index.ts`: `getItemContent` /
`setItemContent` dispatch on the item kind (`card` exposes `title`),
metadata is a string-keyed store, and the markdown flag is the presence of
a string value under the key `"original-markdown"`. -/

/-- Item kinds distinguished by `isContentItem` in the source, plus a
catch-all for every other board item type. -/
inductive ItemType where
  | text
  | shape
  | sticky_note
  | card
  | other
deriving DecidableEq

/-- A metadata value as observed through `getMetadata`: either a string or
no string value (JavaScript `null`/`undefined`, both of which fail the
`typeof ... === "string"` test). -/
inductive MetaVal where
  | strv (s : String)
  | novalue
deriving DecidableEq

/-- `typeof v === "string"`. -/
def MetaVal.isString : MetaVal → Bool
  | .strv _ => true
  | .novalue => false

/-- A board item: its kind, its `content` and `title` fields, and its
string-keyed metadata store. -/
structure Item where
  type : ItemType
  content : String
  title : String
  meta : String → MetaVal

/-- The metadata key `MARKDOWN_META_KEY = "original-markdown"`. -/
def MARKDOWN_META_KEY : String := "original-markdown"

/-- `getItemContent`: cards expose `title`, every other content item
exposes `content`. -/
def getItemContent (it : Item) : String :=
  if it.type = ItemType.card then it.title else it.content

/-- `setItemContent`: writes `title` for cards, `content` otherwise. -/
def setItemContent (it : Item) (c : String) : Item :=
  if it.type = ItemType.card then { it with title := c } else { it with content := c }

/-- `item.setMetadata(k, v)`: point update of the metadata store. -/
def setMetadata (it : Item) (k : String) (v : MetaVal) : Item :=
  { it with meta := fun k2 => if k2 = k then v else it.meta k2 }

/-- `hasMarkdownEnabled`: the metadata entry under `MARKDOWN_META_KEY` is a
string. -/
def hasMarkdownEnabled (it : Item) : Bool :=
  (it.meta MARKDOWN_META_KEY).isString

/-- The per-item effect of the `enable-srd-markdown` action
(`onMarkdownEnable`): when markdown is not yet enabled, store the current
content in the metadata; otherwise do nothing. -/
def onMarkdownEnable (it : Item) : Item :=
  if hasMarkdownEnabled it then it
  else setMetadata it MARKDOWN_META_KEY (MetaVal.strv (getItemContent it))

/-- The per-item effect of the `disable-srd-markdown` action
(`onMarkdownDisable`): when markdown is enabled, clear the metadata entry
(`setMetadata(key, null)`); otherwise do nothing. -/
def onMarkdownDisable (it : Item) : Item :=
  if hasMarkdownEnabled it then setMetadata it MARKDOWN_META_KEY MetaVal.novalue
  else it

theorem setMetadata_content (it : Item) (k : String) (v : MetaVal) :
    (setMetadata it k v).content = it.content := rfl

theorem setMetadata_title (it : Item) (k : String) (v : MetaVal) :
    (setMetadata it k v).title = it.title := rfl

theorem setMetadata_type (it : Item) (k : String) (v : MetaVal) :
    (setMetadata it k v).type = it.type := rfl

theorem getItemContent_setMetadata (it : Item) (k : String) (v : MetaVal) :
    getItemContent (setMetadata it k v) = getItemContent it := rfl

theorem onMarkdownEnable_content (it : Item) :
    (onMarkdownEnable it).content = it.content := by
  unfold onMarkdownEnable
  split <;> rfl

theorem onMarkdownEnable_title (it : Item) :
    (onMarkdownEnable it).title = it.title := by
  unfold onMarkdownEnable
  split <;> rfl

theorem onMarkdownDisable_content (it : Item) :
    (onMarkdownDisable it).content = it.content := by
  unfold onMarkdownDisable
  split <;> rfl

theorem onMarkdownDisable_title (it : Item) :
    (onMarkdownDisable it).title = it.title := by
  unfold onMarkdownDisable
  split <;> rfl

theorem getItemContent_onMarkdownEnable (it : Item) :
    getItemContent (onMarkdownEnable it) = getItemContent it := by
  unfold onMarkdownEnable
  split <;> rfl

theorem getItemContent_onMarkdownDisable (it : Item) :
    getItemContent (onMarkdownDisable it) = getItemContent it := by
  unfold onMarkdownDisable
  split <;> rfl

theorem hasMarkdownEnabled_onMarkdownEnable (it : Item) :
    hasMarkdownEnabled (onMarkdownEnable it) = true := by
  unfold onMarkdownEnable
  split
  · assumption
  · simp [hasMarkdownEnabled, setMetadata, MetaVal.isString]

theorem hasMarkdownEnabled_onMarkdownDisable (it : Item) :
    hasMarkdownEnabled (onMarkdownDisable it) = false := by
  unfold onMarkdownDisable
  split
  · simp [hasMarkdownEnabled, setMetadata, MetaVal.isString]
  · simp_all

/-- **C1.** Enabling then disabling markdown, with no intervening
focus/selection events, leaves the item's content field (the `title` for
cards, `content` otherwise) exactly as it was.  This is proved for every
content string: neither action ever writes the content field, so the
metadata-sentinel caveat of the claim is not even needed. -/
theorem c1_disable_enable_round_trip (it : Item) :
    getItemContent (onMarkdownDisable (onMarkdownEnable it)) = getItemContent it := by
  rw [getItemContent_onMarkdownDisable, getItemContent_onMarkdownEnable]

/-- **C2.** `hasMarkdownEnabled` is true immediately after the enable
action and false immediately after the disable action, and repeated
enable (resp. disable) calls with no intervening focus events are no-ops
(the item is returned unchanged when already in the target mode). -/
theorem c2_mode_toggle_stable (it : Item) :
    hasMarkdownEnabled (onMarkdownEnable it) = true ∧
    hasMarkdownEnabled (onMarkdownDisable it) = false ∧
    onMarkdownEnable (onMarkdownEnable it) = onMarkdownEnable it ∧
    onMarkdownDisable (onMarkdownDisable it) = onMarkdownDisable it := by
  have henable : ∀ it2 : Item, hasMarkdownEnabled it2 = true → onMarkdownEnable it2 = it2 := by
    intro it2 h2
    unfold onMarkdownEnable
    simp [h2]
  have hdisable : ∀ it2 : Item, hasMarkdownEnabled it2 = false → onMarkdownDisable it2 = it2 := by
    intro it2 h2
    unfold onMarkdownDisable
    simp [h2]
  exact ⟨hasMarkdownEnabled_onMarkdownEnable it, hasMarkdownEnabled_onMarkdownDisable it,
    henable _ (hasMarkdownEnabled_onMarkdownEnable it),
    hdisable _ (hasMarkdownEnabled_onMarkdownDisable it)⟩

/-- **C10.** The enable and disable actions modify only the single
metadata entry under `MARKDOWN_META_KEY`: every other metadata key, and
both the `content` and `title` fields, are left unchanged. -/
theorem c10_actions_touch_only_markdown_key (it : Item) (k : String)
    (h : k ≠ MARKDOWN_META_KEY) :
    (onMarkdownEnable it).meta k = it.meta k ∧
    (onMarkdownDisable it).meta k = it.meta k ∧
    (onMarkdownEnable it).content = it.content ∧
    (onMarkdownEnable it).title = it.title ∧
    (onMarkdownDisable it).content = it.content ∧
    (onMarkdownDisable it).title = it.title := by
  refine ⟨?_, ?_, onMarkdownEnable_content it, onMarkdownEnable_title it,
    onMarkdownDisable_content it, onMarkdownDisable_title it⟩
  · unfold onMarkdownEnable
    split
    · rfl
    · simp [setMetadata, h]
  · unfold onMarkdownDisable
    split
    · simp [setMetadata, h]
    · rfl

/-- Witness for C10 at a concrete item and key. -/
theorem c10_actions_touch_only_markdown_key_witness :
    ("color" ≠ MARKDOWN_META_KEY) ∧
    (onMarkdownEnable
        ⟨ItemType.text, "hello", "", fun _ => MetaVal.novalue⟩).meta "color" =
      (⟨ItemType.text, "hello", "", fun _ => MetaVal.novalue⟩ : Item).meta "color" := by
  refine ⟨by decide, ?_⟩
  exact (c10_actions_touch_only_markdown_key
    ⟨ItemType.text, "hello", "", fun _ => MetaVal.novalue⟩ "color" (by decide)).1

/-! ## Inline transformer (`convertLineToMarkdown`)

The source applies seven global regex substitutions in order:
`_([^_]+)_` → `<u>$1</u>`, `\*\*([^*]+)\*\*` → `<b>$1</b>`,
`\*([^*]+)\*` → `<em>$1</em>`, `~([^~]+)~` → `<s>$1</s>`,
`\[([^\]]+)\]\(([^)]+)\)` → `<a href="$2">$1</a>`, `\[ \]` → 🔲 and
`\[x\]` (case-insensitive) → ✅.  Each pass below is a left-to-right
scanner with JavaScript `replaceAll` semantics: at each position the
pattern is tried (greedy character classes, which for these patterns means
"up to the first occurrence of the closing delimiter"); on success the
replacement is emitted and scanning resumes after the match, on failure
the current character is emitted and scanning resumes one position
later. -/

/-- One pass of a single-character-delimited rule `d([^d]+)d` → `pre $1
suf`.  The first argument is the scanner state: `none` while looking for
an opening delimiter, `some buf` after an opening delimiter with the
(reversed) content read so far. -/
def replaceDelimGo (d : Char) (pre suf : List Char) :
    Option (List Char) → List Char → List Char
  | none, [] => []
  | none, c :: cs =>
    if c = d then replaceDelimGo d pre suf (some []) cs
    else c :: replaceDelimGo d pre suf none cs
  | some buf, [] => d :: buf.reverse
  | some buf, c :: cs =>
    if c = d then
      if buf.isEmpty then d :: replaceDelimGo d pre suf (some []) cs
      else pre ++ buf.reverse ++ suf ++ replaceDelimGo d pre suf none cs
    else replaceDelimGo d pre suf (some (c :: buf)) cs

/-- `.replaceAll(/_([^_]+)_/gi, "<u>$1</u>")`. -/
def replaceUnderline (l : List Char) : List Char :=
  replaceDelimGo '_' "<u>".data "</u>".data none l

/-- `.replaceAll(/\*([^\*]+)\*/gi, "<em>$1</em>")`. -/
def replaceItalic (l : List Char) : List Char :=
  replaceDelimGo '*' "<em>".data "</em>".data none l

/-- `.replaceAll(/\~([^~]+)\~/gi, "<s>$1</s>")`. -/
def replaceStrike (l : List Char) : List Char :=
  replaceDelimGo '~' "<s>".data "</s>".data none l

/-- One pass of `\*\*([^*]+)\*\*` → `<b>$1</b>`.  State `some buf`: a
`**` opener has been consumed and `buf` is the (reversed) content so far;
a single `*` ending a non-empty content must be followed by a second `*`
for the match to succeed, otherwise the whole attempt is emitted
literally (exactly what the regex engine produces, since `[^*]+` cannot
backtrack across an asterisk). -/
def replaceBoldGo : Option (List Char) → List Char → List Char
  | none, [] => []
  | none, '*' :: '*' :: cs => replaceBoldGo (some []) cs
  | none, c :: cs => c :: replaceBoldGo none cs
  | some buf, [] => '*' :: '*' :: buf.reverse
  | some buf, '*' :: '*' :: cs =>
    if buf.isEmpty then '*' :: replaceBoldGo (some []) ('*' :: cs)
    else "<b>".data ++ buf.reverse ++ "</b>".data ++ replaceBoldGo none cs
  | some buf, '*' :: cs =>
    if buf.isEmpty then '*' :: replaceBoldGo (some []) cs
    else '*' :: '*' :: (buf.reverse ++ '*' :: replaceBoldGo none cs)
  | some buf, c :: cs => replaceBoldGo (some (c :: buf)) cs

/-- `.replaceAll(/\*\*([^\*]+)\*\*/gi, "<b>$1</b>")`. -/
def replaceBold (l : List Char) : List Char :=
  replaceBoldGo none l

/-- Split a character list at the first occurrence of `d`, returning the
part before and the part after (the occurrence itself is dropped). -/
def splitAtChar (d : Char) : List Char → Option (List Char × List Char)
  | [] => none
  | c :: cs =>
    if c = d then some ([], cs)
    else
      match splitAtChar d cs with
      | some (a, b) => some (c :: a, b)
      | none => none

/-- Try to match the tail of `\[([^\]]+)\]\(([^)]+)\)` right after an
opening `[`: a non-empty label up to the first `]`, a literal `(`, and a
non-empty url up to the first `)`.  Returns `(label, url, rest)`. -/
def tryLink (cs : List Char) : Option (List Char × List Char × List Char) :=
  match splitAtChar ']' cs with
  | some (lab, rest1) =>
    if lab.isEmpty then none
    else
      match rest1 with
      | '(' :: rest2 =>
        match splitAtChar ')' rest2 with
        | some (url, rest3) => if url.isEmpty then none else some (lab, url, rest3)
        | none => none
      | _ => none
  | none => none

/-- One pass of `\[([^\]]+)\]\(([^)]+)\)` → `<a href="$2">$1</a>`.  Fuel
is consumed once per scanning step; the wrapper passes the input length,
which always suffices because every step also consumes at least one
character. -/
def replaceLinkGo : Nat → List Char → List Char
  | _, [] => []
  | 0, l => l
  | fuel + 1, '[' :: cs =>
    match tryLink cs with
    | some (lab, url, rest) =>
      "<a href=\"".data ++ url ++ "\">".data ++ lab ++ "</a>".data ++ replaceLinkGo fuel rest
    | none => '[' :: replaceLinkGo fuel cs
  | fuel + 1, c :: cs => c :: replaceLinkGo fuel cs

/-- `.replaceAll(/\[([^\]]+)\]\(([^)]+)\)/gi, "<a href=\"$2\">$1</a>")`. -/
def replaceLink (l : List Char) : List Char :=
  replaceLinkGo l.length l

/-- `.replaceAll(/\[ \]/gi, "🔲")`. -/
def replaceUnchecked : List Char → List Char
  | [] => []
  | '[' :: ' ' :: ']' :: cs => '🔲' :: replaceUnchecked cs
  | c :: cs => c :: replaceUnchecked cs

/-- `.replaceAll(/\[x\]/gi, "✅")` (the `i` flag makes `[X]` match too). -/
def replaceChecked : List Char → List Char
  | [] => []
  | '[' :: c :: ']' :: cs =>
    if c = 'x' ∨ c = 'X' then '✅' :: replaceChecked cs
    else '[' :: replaceChecked (c :: ']' :: cs)
  | c :: cs => c :: replaceChecked cs

/-- `convertLineToMarkdown`: the seven substitution passes, applied
exactly once each, in the source's order. -/
def convertLineToMarkdown (text : String) : String :=
  String.mk
    (replaceChecked
      (replaceUnchecked
        (replaceLink
          (replaceStrike
            (replaceItalic
              (replaceBold
                (replaceUnderline text.data)))))))

/-! ## Block splitter

`convertTextToMarkdown` first splits on `/(?:\n|\<br\>|&nbsp;)+/gi`: one
or more consecutive occurrences of a line feed, a literal `<br>` (case
insensitive) or a `&nbsp;` entity (case insensitive) form a single
boundary.  If that yields exactly one line, it re-splits the line by
replacing `<p>X</p>` (lazy, case insensitive) with `X` + line feed,
appending a line feed after every `</ol>`/`</ul>`/`</li>` (case
insensitive), and splitting on plain `\n`. -/

/-- Case-insensitive check for the two letters of `<br>`. -/
def isBrPair (c1 c2 : Char) : Bool :=
  (c1 = 'b' ∨ c1 = 'B') ∧ (c2 = 'r' ∨ c2 = 'R')

/-- Case-insensitive check for the four letters of `&nbsp;`. -/
def isNbspQuad (c1 c2 c3 c4 : Char) : Bool :=
  ((c1 = 'n' ∨ c1 = 'N') ∧ (c2 = 'b' ∨ c2 = 'B')) ∧
  ((c3 = 's' ∨ c3 = 'S') ∧ (c4 = 'p' ∨ c4 = 'P'))

/-- The scanner behind `text.split(/(?:\n|\<br\>|&nbsp;)+/gi)`.  `acc` is
the (reversed) current segment; `inRun` records whether the previous
position was inside a delimiter run, so that consecutive delimiter tokens
are consumed without emitting further boundaries. -/
def splitGo (inRun : Bool) (acc : List Char) : List Char → List (List Char)
  | [] => [acc.reverse]
  | '\n' :: r =>
    if inRun then splitGo true acc r else acc.reverse :: splitGo true [] r
  | '<' :: c1 :: c2 :: '>' :: r =>
    if isBrPair c1 c2 then
      if inRun then splitGo true acc r else acc.reverse :: splitGo true [] r
    else splitGo false ('<' :: acc) (c1 :: c2 :: '>' :: r)
  | '&' :: c1 :: c2 :: c3 :: c4 :: ';' :: r =>
    if isNbspQuad c1 c2 c3 c4 then
      if inRun then splitGo true acc r else acc.reverse :: splitGo true [] r
    else splitGo false ('&' :: acc) (c1 :: c2 :: c3 :: c4 :: ';' :: r)
  | c :: cs => splitGo false (c :: acc) cs

/-- `text.split(/(?:\n|\<br\>|&nbsp;)+/gi)`. -/
def primarySplit (text : String) : List String :=
  (splitGo false [] text.data).map String.mk

/-- Characters the regex `.` does not match in JavaScript (no `s` flag):
the line terminators. -/
def dotOk (c : Char) : Bool :=
  c ≠ '\n' ∧ c ≠ '\r' ∧ c.toNat ≠ 0x2028 ∧ c.toNat ≠ 0x2029

/-- Strip a leading `<p>` (case insensitive). -/
def stripPOpen : List Char → Option (List Char)
  | '<' :: c :: '>' :: r => if c = 'p' ∨ c = 'P' then some r else none
  | _ => none

/-- Strip a leading `</p>` (case insensitive). -/
def stripPClose : List Char → Option (List Char)
  | '<' :: '/' :: c :: '>' :: r => if c = 'p' ∨ c = 'P' then some r else none
  | _ => none

/-- The lazy part `(.+?)<\/p>` of the paragraph-stripping regex: the
shortest non-empty run of `.`-matchable characters followed by `</p>`;
returns the content and the remainder after the closing tag. -/
def pContentSplit : List Char → Option (List Char × List Char)
  | [] => none
  | c :: cs =>
    if dotOk c then
      match stripPClose cs with
      | some rest => some ([c], rest)
      | none =>
        match pContentSplit cs with
        | some (content, rest) => some (c :: content, rest)
        | none => none
    else none

/-- One pass of `.replaceAll(/<p>(.+?)<\/p>/gi, "$1\n")`, fuelled by the
input length (every step consumes at least one character, so the wrapper's
fuel never runs out). -/
def replacePTagsGo : Nat → List Char → List Char
  | _, [] => []
  | 0, l => l
  | fuel + 1, c :: cs =>
    match stripPOpen (c :: cs) with
    | some rest =>
      match pContentSplit rest with
      | some (content, after) => content ++ '\n' :: replacePTagsGo fuel after
      | none => c :: replacePTagsGo fuel cs
    | none => c :: replacePTagsGo fuel cs

/-- `.replaceAll(/<p>(.+?)<\/p>/gi, "$1\n")`. -/
def replacePTags (l : List Char) : List Char :=
  replacePTagsGo l.length l

/-- Case-insensitive letters of a closing `ol`/`ul`/`li` tag. -/
def isCloseListTag (c1 c2 : Char) : Bool :=
  ((c1 = 'o' ∨ c1 = 'O') ∧ (c2 = 'l' ∨ c2 = 'L')) ∨
  ((c1 = 'u' ∨ c1 = 'U') ∧ (c2 = 'l' ∨ c2 = 'L')) ∨
  ((c1 = 'l' ∨ c1 = 'L') ∧ (c2 = 'i' ∨ c2 = 'I'))

/-- `.replaceAll(/(<\/ol>|<\/ul>|<\/li>)/gi, "$1\n")`: append a line feed
after every closing list/list-item tag, preserving the matched text. -/
def insertNlClose : List Char → List Char
  | [] => []
  | '<' :: '/' :: c1 :: c2 :: '>' :: r =>
    if isCloseListTag c1 c2 then
      '<' :: '/' :: c1 :: c2 :: '>' :: '\n' :: insertNlClose r
    else '<' :: insertNlClose ('/' :: c1 :: c2 :: '>' :: r)
  | c :: cs => c :: insertNlClose cs

/-- `.split(/\n/)`: plain split on single line feeds (no collapsing). -/
def splitOnNl : List Char → List (List Char)
  | [] => [[]]
  | '\n' :: r => [] :: splitOnNl r
  | c :: r =>
    match splitOnNl r with
    | s :: ss => (c :: s) :: ss
    | [] => [[c]]

/-- The character-level fallback transformation applied to the single
line before the final `\n` split. -/
def fallbackChars (s : String) : List Char :=
  insertNlClose (replacePTags s.data)

/-- The fallback re-split used when the primary split yields one line. -/
def fallbackSplit (s : String) : List String :=
  (splitOnNl (fallbackChars s)).map String.mk

/-- The `inputLines` computation of `convertTextToMarkdown`: the primary
split, re-split through the fallback when it yields exactly one line. -/
def splitLines (text : String) : List String :=
  match primarySplit text with
  | [single] => fallbackSplit single
  | ls => ls

/-! ## Line classifier & grouper (`processLine`) and assembler -/

/-- The mutable state of `convertTextToMarkdown`'s line loop:
`outputLines`, the pending bullet buffer `liLines`, and the captured
leading-whitespace snapshot `liSpaces`. -/
structure ConvState where
  outputLines : List String
  liLines : List String
  liSpaces : String
deriving DecidableEq

/-- The initial loop state: no output, no buffered bullets, empty
whitespace snapshot. -/
def initConvState : ConvState := ⟨[], [], ""⟩

/-- JavaScript `\s` (the whitespace class used by the bullet pattern
`/^(\s*)\*/`). -/
def jsWhitespace (c : Char) : Bool :=
  c = ' ' ∨ c = '\t' ∨ c = '\n' ∨ c = '\r' ∨ c = '\x0b' ∨ c = '\x0c' ∨
  c.toNat = 0xA0 ∨ c.toNat = 0x1680 ∨ (0x2000 ≤ c.toNat ∧ c.toNat ≤ 0x200A) ∨
  c.toNat = 0x2028 ∨ c.toNat = 0x2029 ∨ c.toNat = 0x202F ∨ c.toNat = 0x205F ∨
  c.toNat = 0x3000 ∨ c.toNat = 0xFEFF

/-- `line.match(/^(\s*)\*/)`: when the line is a bullet (optional leading
whitespace followed by `*`), return the captured whitespace prefix. -/
def bulletSpaces (l : List Char) : Option (List Char) :=
  match l.span jsWhitespace with
  | (ws, '*' :: _) => some ws
  | _ => none

/-- `String.prototype.replace` with a plain-string pattern: replace the
first occurrence of `pat` (if any) by `rep`. -/
def replaceFirstL (pat rep : List Char) : List Char → List Char
  | [] => if pat.isEmpty then rep else []
  | c :: cs =>
    if pat.isPrefixOf (c :: cs) then rep ++ (c :: cs).drop pat.length
    else c :: replaceFirstL pat rep cs

/-- Flush the buffered bullet lines: emit `liSpaces • li` for each
buffered entry and reset the buffer and the whitespace snapshot.  A no-op
when the buffer is empty (the source's `else if (liLines.length > 0)`). -/
def flushLists (st : ConvState) : ConvState :=
  if st.liLines.length > 0 then
    ⟨st.outputLines ++ st.liLines.map (fun li => st.liSpaces ++ "• " ++ li), [], ""⟩
  else st

/-- `String.prototype.endsWith` (case sensitive), over the character
list. -/
def endsWithStr (s suffix : String) : Bool :=
  suffix.data.reverse.isPrefixOf s.data.reverse

/-- Emission of a processed non-bullet line: lines ending in a closing
list tag pass through unwrapped, text items wrap in `<p>…</p>`, other
items emit the line as is. -/
def emitPlain (isText : Bool) (st : ConvState) (pl : String) : ConvState :=
  { st with
    outputLines := st.outputLines ++
      [if endsWithStr pl "</ol>" ∨ endsWithStr pl "</ul>" ∨ endsWithStr pl "</li>" then pl
       else if isText then "<p>" ++ pl ++ "</p>" else pl] }

/-- The body of the source's `processLine`: inline-transform the line (if
any), buffer it when the *transformed* line matches the bullet pattern
(capturing the whitespace prefix only while the snapshot is still empty),
otherwise flush any buffered bullets and emit the line; a `null` line only
flushes. -/
def processLine (isText : Bool) (st : ConvState) (line : Option String) : ConvState :=
  match line with
  | some l =>
    let pl := convertLineToMarkdown l
    match bulletSpaces pl.data with
    | some spaces =>
      { st with
        liLines := st.liLines ++ [String.mk (replaceFirstL (spaces ++ ['*']) [] pl.data)],
        liSpaces := if st.liSpaces.length = 0 then String.mk spaces else st.liSpaces }
    | none => emitPlain isText (flushLists st) pl
  | none => flushLists st

/-- The source's `for` loop: run `processLine` over every input line. -/
def foldProcess (isText : Bool) (st : ConvState) (lines : List String) : ConvState :=
  lines.foldl (fun s l => processLine isText s (some l)) st

/-- `convertTextToMarkdown`: split into lines, run the classifier/grouper
over each line plus a terminal `null` flush, and join — plain
concatenation for text items, `<br/>` joins otherwise. -/
def convertTextToMarkdown (text : String) (isText : Bool) : String :=
  let final := foldProcess isText initConvState (splitLines text)
  let final2 := processLine isText final none
  if isText then String.join final2.outputLines
  else String.intercalate "<br/>" final2.outputLines

/-! ## Inline transformer claims -/

/-- **C3.** The inline transformer applies its seven substitution rules
exactly once each, in the order underline, bold, italic, strikethrough,
link, unchecked box, checked box (each rule one global pass over the
line); on `"**bold** and *italic*"` the bold rule consumes the doubled
asterisks first, so bold wraps `bold` and italic wraps `italic`. -/
theorem c3_rule_order_and_precedence :
    (∀ s : String, convertLineToMarkdown s =
      String.mk (replaceChecked (replaceUnchecked (replaceLink (replaceStrike
        (replaceItalic (replaceBold (replaceUnderline s.data)))))))) ∧
    convertLineToMarkdown "**bold** and *italic*" = "<b>bold</b> and <em>italic</em>" :=
  ⟨fun _ => rfl, by decide⟩

/-! ## Classifier / grouper claims -/

/-- **C5.** On the plain-field kind (`isText = false`), the input lines
`"* a"`, `"* b"`, `"c"` produce one bullet block — the glyph-prefixed
entries for `a` and `b` — followed by the separate entry `c`; and for
every state of the line loop, processing the terminal `null` line flushes
the buffered bullet run into the output and leaves no dangling buffered
state. -/
theorem c5_bullet_grouping_flushes :
    convertTextToMarkdown "* a\n* b\nc" false = "•  a<br/>•  b<br/>c" ∧
    ∀ (isText : Bool) (st : ConvState),
      (processLine isText st none).liLines = [] ∧
      (processLine isText st none).outputLines =
        st.outputLines ++ st.liLines.map (fun li => st.liSpaces ++ "• " ++ li) := by
  refine ⟨by decide, ?_⟩
  intro isText st
  show (flushLists st).liLines = [] ∧
    (flushLists st).outputLines =
      st.outputLines ++ st.liLines.map (fun li => st.liSpaces ++ "• " ++ li)
  unfold flushLists
  split
  · exact ⟨rfl, rfl⟩
  · next h =>
    have hnil : st.liLines = [] := by
      rcases hl : st.liLines with _ | ⟨a, as⟩
      · rfl
      · rw [hl] at h
        exact absurd (by simp) h
    simp [hnil]

/-- Joining a line list back with single line feeds. -/
def joinNl : List (List Char) → List Char
  | [] => []
  | [x] => x
  | x :: xs => x ++ '\n' :: joinNl xs

theorem splitOnNl_ne_nil (l : List Char) : splitOnNl l ≠ [] := by
  induction l with
  | nil => simp [splitOnNl]
  | cons c r ih =>
    by_cases hc : c = '\n'
    · subst hc
      simp [splitOnNl]
    · rcases hr : splitOnNl r with _ | ⟨s, ss⟩
      · exact absurd hr ih
      · simp [splitOnNl, hc, hr]

theorem joinNl_splitOnNl (l : List Char) : joinNl (splitOnNl l) = l := by
  induction l with
  | nil => rfl
  | cons c r ih =>
    by_cases hc : c = '\n'
    · subst hc
      rcases hr : splitOnNl r with _ | ⟨s, ss⟩
      · exact absurd hr (splitOnNl_ne_nil r)
      · rw [hr] at ih
        simp [splitOnNl, hr, joinNl, ih]
    · rcases hr : splitOnNl r with _ | ⟨s, ss⟩
      · exact absurd hr (splitOnNl_ne_nil r)
      · rw [hr] at ih
        rcases ss with _ | ⟨t, ts⟩
        · simp [splitOnNl, hc, hr, joinNl] at ih ⊢
          exact ih
        · simp [splitOnNl, hc, hr, joinNl] at ih ⊢
          rw [← ih]

/-- **C7.** When the primary split yields exactly one line, the splitter
re-splits that line by replacing every `<p>X</p>` with `X` plus a line
feed, inserting a line feed after every closing list/list-item tag, and
splitting on line feeds; joining the resulting lines back with line feeds
recovers the transformed text exactly, so the inter-line order is
preserved and no content is dropped by the split. -/
theorem c7_fallback_resplit (text s : String) (h : primarySplit text = [s]) :
    splitLines text = (splitOnNl (insertNlClose (replacePTags s.data))).map String.mk ∧
    (∀ l : List Char, joinNl (splitOnNl l) = l) := by
  constructor
  · unfold splitLines
    rw [h]
    rfl
  · exact joinNl_splitOnNl

/-- Witness for C7 at a paragraph-wrapped input: the primary split leaves
it whole, and the fallback yields the two paragraph bodies plus the empty
string produced by the trailing stripped tag. -/
theorem c7_fallback_resplit_witness :
    primarySplit "<p>a</p><p>b</p>" = ["<p>a</p><p>b</p>"] ∧
    splitLines "<p>a</p><p>b</p>" =
      (splitOnNl (insertNlClose (replacePTags ("<p>a</p><p>b</p>" : String).data))).map String.mk ∧
    splitLines "<p>a</p><p>b</p>" = ["a", "b", ""] := by
  refine ⟨by decide, (c7_fallback_resplit _ _ (by decide)).1, by decide⟩

/-- The counterexample input for **C8**: `"* a *b*"` matches the bullet
pattern (no leading whitespace, `*`, content), yet the classifier does not
buffer it: the inline transformer runs first and turns it into
`"<em> a </em>b*"`, which no longer matches, so the line is emitted as a
plain line. -/
theorem c8_counterexample :
    (bulletSpaces ("* a *b*" : String).data).isSome = true ∧
    processLine false initConvState (some "* a *b*") =
      ⟨["<em> a </em>b*"], [], ""⟩ := by
  exact ⟨by decide, by decide⟩

theorem replaceFirstL_head_match (pat rep : List Char) (c : Char) (cs : List Char)
    (h : pat.isPrefixOf (c :: cs) = true) :
    replaceFirstL pat rep (c :: cs) = rep ++ (c :: cs).drop pat.length := by
  simp [replaceFirstL, h]

theorem isPrefixOf_append_self (a b : List Char) : a.isPrefixOf (a ++ b) = true := by
  induction a with
  | nil => simp [List.isPrefixOf]
  | cons c cs ih => simp [List.isPrefixOf, ih]

theorem bulletSpaces_decomp (l sp : List Char) (h : bulletSpaces l = some sp) :
    l = (sp ++ ['*']) ++ l.drop (sp.length + 1) := by
  have hsplit := List.takeWhile_append_dropWhile jsWhitespace l
  unfold bulletSpaces at h
  rw [List.span_eq_take_drop jsWhitespace l] at h
  rcases hdw : l.dropWhile jsWhitespace with _ | ⟨r0, rtail⟩
  · rw [hdw] at h
    simp at h
  · rw [hdw] at h
    by_cases hr0 : r0 = '*'
    · subst hr0
      simp at h
      rw [hdw, h] at hsplit
      have hl : (sp ++ ['*']) ++ rtail = l := by simpa using hsplit
      have hdrop : l.drop (sp.length + 1) = rtail := by
        rw [← hl]
        have hlen : sp.length + 1 = (sp ++ ['*']).length := by simp
        rw [hlen, List.drop_left]
      rw [hdrop]
      exact hl.symm
    · simp [hr0] at h

/-- The collecting step of the classifier: a line whose inline-transformed
form matches the bullet pattern is appended to the buffer, stripped of its
whitespace prefix and bullet marker, and the snapshot is updated only
while still empty. -/
theorem processLine_bullet_eq (isText : Bool) (st : ConvState)
    (line : String) (spaces : List Char)
    (h : bulletSpaces (convertLineToMarkdown line).data = some spaces) :
    processLine isText st (some line) =
      { st with
        liLines := st.liLines ++
          [String.mk ((convertLineToMarkdown line).data.drop (spaces.length + 1))],
        liSpaces := if st.liSpaces.length = 0 then String.mk spaces else st.liSpaces } := by
  have hred : processLine isText st (some line) =
      match bulletSpaces (convertLineToMarkdown line).data with
      | some sp =>
        { st with
          liLines := st.liLines ++
            [String.mk (replaceFirstL (sp ++ ['*']) [] (convertLineToMarkdown line).data)],
          liSpaces := if st.liSpaces.length = 0 then String.mk sp else st.liSpaces }
      | none => emitPlain isText (flushLists st) (convertLineToMarkdown line) := rfl
  have hdecomp := bulletSpaces_decomp _ _ h
  have hstrip : replaceFirstL (spaces ++ ['*']) [] (convertLineToMarkdown line).data =
      (convertLineToMarkdown line).data.drop (spaces.length + 1) := by
    rcases hl : (convertLineToMarkdown line).data with _ | ⟨c, cs⟩
    · rw [hl] at hdecomp
      exact absurd hdecomp.symm (by simp)
    · rw [hl] at hdecomp
      have hpre : (spaces ++ ['*']).isPrefixOf (c :: cs) = true := by
        rw [hdecomp]
        exact isPrefixOf_append_self _ _
      rw [replaceFirstL_head_match _ _ _ _ hpre]
      simp
  rw [hred, h]
  show { st with
      liLines := st.liLines ++
        [String.mk (replaceFirstL (spaces ++ ['*']) [] (convertLineToMarkdown line).data)],
      liSpaces := if st.liSpaces.length = 0 then String.mk spaces else st.liSpaces } =
    { st with
      liLines := st.liLines ++
        [String.mk ((convertLineToMarkdown line).data.drop (spaces.length + 1))],
      liSpaces := if st.liSpaces.length = 0 then String.mk spaces else st.liSpaces }
  rw [hstrip]

theorem processLine_nonbullet_eq (isText : Bool) (st : ConvState) (line : String)
    (h : bulletSpaces (convertLineToMarkdown line).data = none) :
    processLine isText st (some line) =
      emitPlain isText (flushLists st) (convertLineToMarkdown line) := by
  have hred : processLine isText st (some line) =
      match bulletSpaces (convertLineToMarkdown line).data with
      | some sp =>
        { st with
          liLines := st.liLines ++
            [String.mk (replaceFirstL (sp ++ ['*']) [] (convertLineToMarkdown line).data)],
          liSpaces := if st.liSpaces.length = 0 then String.mk sp else st.liSpaces }
      | none => emitPlain isText (flushLists st) (convertLineToMarkdown line) := rfl
  rw [hred, h]

/-- **C8 (amended).** The classifier tests the bullet pattern against the
*inline-transformed* line, not the raw line: for every line whose
transformed form matches (leading whitespace, then `*`), it enters or
stays in the collecting state, buffering the transformed line with its
whitespace prefix and bullet marker stripped, and re-capturing the
whitespace snapshot only while the snapshot is still empty; a line whose
transformed form does not match — even one that matched the bullet
pattern before inline transformation — is processed as a plain line. -/
theorem c8_amended_bullet_on_transformed (isText : Bool) (st : ConvState)
    (line : String) (spaces : List Char)
    (h : bulletSpaces (convertLineToMarkdown line).data = some spaces) :
    processLine isText st (some line) =
      { st with
        liLines := st.liLines ++
          [String.mk ((convertLineToMarkdown line).data.drop (spaces.length + 1))],
        liSpaces := if st.liSpaces.length = 0 then String.mk spaces else st.liSpaces } ∧
    (∀ line2 : String, bulletSpaces (convertLineToMarkdown line2).data = none →
      processLine isText st (some line2) =
        emitPlain isText (flushLists st) (convertLineToMarkdown line2)) :=
  ⟨processLine_bullet_eq isText st line spaces h,
   fun line2 h2 => processLine_nonbullet_eq isText st line2 h2⟩

/-- Witness for C8 (amended) at the bullet line `"* x"` from the initial
state. -/
theorem c8_amended_bullet_on_transformed_witness :
    bulletSpaces (convertLineToMarkdown "* x").data = some [] ∧
    processLine false initConvState (some "* x") =
      { initConvState with
        liLines := initConvState.liLines ++
          [String.mk ((convertLineToMarkdown "* x").data.drop (([] : List Char).length + 1))],
        liSpaces := if initConvState.liSpaces.length = 0 then String.mk ([] : List Char)
          else initConvState.liSpaces } := by
  exact ⟨by decide, (c8_amended_bullet_on_transformed false initConvState "* x" [] (by decide)).1⟩

/-- The counterexample input for **C9**: in the run `"* a"`, `"  * b"`,
the first bullet's leading-whitespace prefix is empty, so the snapshot is
still empty when the second bullet arrives and its two-space prefix *is*
captured: every emitted entry is prefixed with `"  "`, not with the first
bullet's (empty) prefix. -/
theorem c9_counterexample :
    bulletSpaces (convertLineToMarkdown "* a").data = some [] ∧
    (processLine false (processLine false initConvState (some "* a"))
        (some "  * b")).liSpaces = "  " ∧
    ("  " : String) ≠ "" ∧
    convertTextToMarkdown "* a\n  * b\nc" false = "  •  a<br/>  •  b<br/>c" := by
  exact ⟨by decide, by decide, by decide, by decide⟩

/-! ## C4: no recursive re-application of inline rules

Every rule's match must begin with one of the trigger characters `_`,
`*`, `~`, `[`; the markup fragments the rules insert contain none of
them, and any text free of them is a fixed point of the whole
transformer, so inserted markup can never fire a later rule or the same
rule again. -/

/-- `true` when the string contains none of the characters that can start
an inline-rule match. -/
def noInlineDelims (s : String) : Bool :=
  s.data.all (fun c => !(c == '_' || c == '*' || c == '~' || c == '['))

/-- Every literal fragment that the seven substitution rules can insert
around or in place of matched text. -/
def insertedMarkup : List String :=
  ["<u>", "</u>", "<b>", "</b>", "<em>", "</em>", "<s>", "</s>",
   "<a href=\"", "\">", "</a>", "🔲", "✅"]

theorem replaceDelimGo_id (d : Char) (pre suf : List Char) (l : List Char)
    (h : ∀ c ∈ l, c ≠ d) : replaceDelimGo d pre suf none l = l := by
  induction l with
  | nil => rfl
  | cons c cs ih =>
    have hc : c ≠ d := h c (by simp)
    simp [replaceDelimGo, hc]
    exact ih (fun x hx => h x (by simp [hx]))

theorem replaceBoldGo_id (l : List Char) (h : ∀ c ∈ l, c ≠ '*') :
    replaceBoldGo none l = l := by
  induction l with
  | nil => rfl
  | cons c cs ih =>
    have hc : c ≠ '*' := h c (by simp)
    simp [replaceBoldGo, hc]
    exact ih (fun x hx => h x (by simp [hx]))

theorem replaceLinkGo_id (fuel : Nat) (l : List Char) (h : ∀ c ∈ l, c ≠ '[') :
    replaceLinkGo fuel l = l := by
  induction fuel generalizing l with
  | zero => cases l <;> rfl
  | succ n ih =>
    cases l with
    | nil => rfl
    | cons c cs =>
      have hc : c ≠ '[' := h c (by simp)
      simp [replaceLinkGo, hc]
      exact ih cs (fun x hx => h x (by simp [hx]))

theorem replaceUnchecked_id (l : List Char) (h : ∀ c ∈ l, c ≠ '[') :
    replaceUnchecked l = l := by
  induction l with
  | nil => rfl
  | cons c cs ih =>
    have hc : c ≠ '[' := h c (by simp)
    simp [replaceUnchecked, hc]
    exact ih (fun x hx => h x (by simp [hx]))

theorem replaceChecked_id (l : List Char) (h : ∀ c ∈ l, c ≠ '[') :
    replaceChecked l = l := by
  induction l with
  | nil => rfl
  | cons c cs ih =>
    have hc : c ≠ '[' := h c (by simp)
    simp [replaceChecked, hc]
    exact ih (fun x hx => h x (by simp [hx]))

/-- **C4.** The inline rules are one-shot textual substitutions with no
recursive re-application: (i) any line free of the rule-trigger
characters `_ * ~ [` is left exactly unchanged by the whole transformer,
and (ii) every markup fragment inserted by any rule's replacement is free
of those trigger characters — so markup inserted by one rule can never be
matched by a later rule or by the same rule (each scanner also resumes
after its own replacement, never inside it). -/
theorem c4_no_recursive_reapplication :
    (∀ s : String, noInlineDelims s = true → convertLineToMarkdown s = s) ∧
    (∀ f ∈ insertedMarkup, noInlineDelims f = true) := by
  constructor
  · intro s hs
    have hmem : ∀ c ∈ s.data, c ≠ '_' ∧ c ≠ '*' ∧ c ≠ '~' ∧ c ≠ '[' := by
      intro c hc
      have := List.all_eq_true.mp hs c hc
      simp at this
      tauto
    unfold convertLineToMarkdown
    rw [show replaceUnderline s.data = s.data from
        replaceDelimGo_id _ _ _ _ (fun c hc => (hmem c hc).1)]
    rw [show replaceBold s.data = s.data from
        replaceBoldGo_id _ (fun c hc => (hmem c hc).2.1)]
    rw [show replaceItalic s.data = s.data from
        replaceDelimGo_id _ _ _ _ (fun c hc => (hmem c hc).2.1)]
    rw [show replaceStrike s.data = s.data from
        replaceDelimGo_id _ _ _ _ (fun c hc => (hmem c hc).2.2.1)]
    rw [show replaceLink s.data = s.data from
        replaceLinkGo_id _ _ (fun c hc => (hmem c hc).2.2.2)]
    rw [replaceUnchecked_id _ (fun c hc => (hmem c hc).2.2.2)]
    rw [replaceChecked_id _ (fun c hc => (hmem c hc).2.2.2)]
  · decide

/-- Witness for C4: already-transformed markup (here `"<u>x</u>"`, which
contains no rule-trigger characters) passes through the transformer
unchanged. -/
theorem c4_no_recursive_reapplication_witness :
    noInlineDelims "<u>x</u>" = true ∧ convertLineToMarkdown "<u>x</u>" = "<u>x</u>" :=
  ⟨by decide, c4_no_recursive_reapplication.1 "<u>x</u>" (by decide)⟩

/-! ## C9: the whitespace snapshot of a bullet run -/

/-- The snapshot update rule of the source (`if (liSpaces.length === 0)
liSpaces = spaces`) accumulated over the prefixes of a bullet run. -/
def captureFold (s : String) (ps : List (List Char)) : String :=
  ps.foldl (fun s2 p => if s2.length = 0 then String.mk p else s2) s

/-- The first non-empty prefix of a run (empty when all are empty). -/
def firstNonempty : List (List Char) → List Char
  | [] => []
  | p :: ps => if p.length = 0 then firstNonempty ps else p

theorem captureFold_of_ne (s : String) (ps : List (List Char))
    (h : s.length ≠ 0) : captureFold s ps = s := by
  induction ps with
  | nil => rfl
  | cons p ps ih =>
    show captureFold (if s.length = 0 then String.mk p else s) ps = s
    rw [if_neg h]
    exact ih

theorem captureFold_empty (ps : List (List Char)) :
    captureFold "" ps = String.mk (firstNonempty ps) := by
  induction ps with
  | nil => rfl
  | cons p ps ih =>
    show captureFold (if ("" : String).length = 0 then String.mk p else "") ps =
      String.mk (firstNonempty (p :: ps))
    rw [show (if ("" : String).length = 0 then String.mk p else ("" : String)) = String.mk p
      from rfl]
    by_cases hp : p.length = 0
    · have hpnil : p = [] := List.length_eq_zero.mp hp
      subst hpnil
      show captureFold "" ps = String.mk (firstNonempty ([] :: ps))
      rw [ih]
      rfl
    · rw [captureFold_of_ne _ _ (by simpa using hp)]
      show String.mk p = String.mk (if p.length = 0 then firstNonempty ps else p)
      rw [if_neg hp]

/-- Running the loop over a run of bullet lines only grows the buffer:
the output is untouched, each line is buffered stripped of its own prefix
and marker, and the snapshot is folded through the capture rule. -/
theorem foldProcess_bullet_run (isText : Bool) (lines : List String)
    (prefixes : List (List Char))
    (h : List.Forall₂ (fun (l : String) (p : List Char) =>
        bulletSpaces (convertLineToMarkdown l).data = some p) lines prefixes) :
    ∀ st : ConvState,
      (foldProcess isText st lines).outputLines = st.outputLines ∧
      (foldProcess isText st lines).liSpaces = captureFold st.liSpaces prefixes ∧
      (foldProcess isText st lines).liLines = st.liLines ++
        (lines.zip prefixes).map (fun lp =>
          String.mk ((convertLineToMarkdown lp.1).data.drop (lp.2.length + 1))) := by
  induction h with
  | nil =>
    intro st
    exact ⟨rfl, rfl, by simp [foldProcess]⟩
  | cons hlp htail ih =>
    intro st
    rename_i l p lines2 prefixes2
    have hstep : foldProcess isText st (l :: lines2) =
        foldProcess isText (processLine isText st (some l)) lines2 := rfl
    rw [hstep, processLine_bullet_eq isText st l p hlp]
    refine ⟨(ih _).1, ?_, ?_⟩
    · rw [(ih _).2.1]
      rfl
    · rw [(ih _).2.2]
      simp

/-- **C9 (amended).** For a maximal run of consecutive bullet lines, every
entry of the emitted block is prefixed with one *shared* whitespace
snapshot, but that snapshot is the first **non-empty** leading-whitespace
prefix among the run's bullets (empty when they are all empty): the
source re-captures the prefix on every bullet for which the snapshot is
still the empty string, so an empty-prefixed first bullet does not pin
the snapshot to the empty string. -/
theorem c9_amended_shared_snapshot (isText : Bool) (lines : List String)
    (prefixes : List (List Char))
    (h : List.Forall₂ (fun (l : String) (p : List Char) =>
        bulletSpaces (convertLineToMarkdown l).data = some p) lines prefixes) :
    (foldProcess isText initConvState lines).liSpaces =
      String.mk (firstNonempty prefixes) ∧
    (flushLists (foldProcess isText initConvState lines)).outputLines =
      (foldProcess isText initConvState lines).liLines.map
        (fun li => String.mk (firstNonempty prefixes) ++ "• " ++ li) ∧
    (foldProcess isText initConvState lines).liLines =
      (lines.zip prefixes).map (fun lp =>
        String.mk ((convertLineToMarkdown lp.1).data.drop (lp.2.length + 1))) := by
  have hrun := foldProcess_bullet_run isText lines prefixes h initConvState
  have hsp : (foldProcess isText initConvState lines).liSpaces =
      String.mk (firstNonempty prefixes) := by
    rw [hrun.2.1]
    exact captureFold_empty prefixes
  refine ⟨hsp, ?_, by simpa using hrun.2.2⟩
  unfold flushLists
  split
  · next hpos =>
    rw [hrun.1, hsp]
    show ([] : List String) ++ _ = _
    simp
  · next hneg =>
    have hnil : (foldProcess isText initConvState lines).liLines = [] := by
      rcases hl : (foldProcess isText initConvState lines).liLines with _ | ⟨a, as⟩
      · rfl
      · rw [hl] at hneg
        exact absurd (by simp) hneg
    rw [hnil, hrun.1]
    rfl

/-- Witness for C9 (amended) at the run `"* a"`, `"  * b"`: the shared
snapshot is the second bullet's two-space prefix, the first non-empty
one. -/
theorem c9_amended_shared_snapshot_witness :
    (foldProcess false initConvState ["* a", "  * b"]).liSpaces =
      String.mk (firstNonempty [([] : List Char), [' ', ' ']]) ∧
    String.mk (firstNonempty [([] : List Char), [' ', ' ']]) = "  " :=
  ⟨(c9_amended_shared_snapshot false ["* a", "  * b"] [[], [' ', ' ']]
      (List.Forall₂.cons (by decide)
        (List.Forall₂.cons (by decide) List.Forall₂.nil))).1,
   by decide⟩

/-! ## C6: the primary split collapses delimiter runs

A maximal run of one-or-more delimiter tokens (`\n`, `<br>`, `&nbsp;`,
the latter two case insensitive) forms a single boundary: interleaving
any non-empty delimiter-free lines with arbitrary non-empty token runs
splits back into exactly those lines, with no empty lines produced by the
repeated delimiters. -/

/-- A character that cannot begin a primary-split delimiter token. -/
def plainChar (c : Char) : Bool :=
  c ≠ '\n' ∧ c ≠ '<' ∧ c ≠ '&'

/-- A single delimiter token of the primary split's regex alternation. -/
inductive DelimToken : List Char → Prop
  | lf : DelimToken ['\n']
  | br (c1 c2 : Char) : isBrPair c1 c2 = true → DelimToken ['<', c1, c2, '>']
  | nbsp (c1 c2 c3 c4 : Char) : isNbspQuad c1 c2 c3 c4 = true →
      DelimToken ['&', c1, c2, c3, c4, ';']

/-- One or more consecutive delimiter tokens (the `+` of the split
regex). -/
inductive DelimRun : List Char → Prop
  | single (t : List Char) : DelimToken t → DelimRun t
  | cons (t r : List Char) : DelimToken t → DelimRun r → DelimRun (t ++ r)

theorem splitGo_content (ir : Bool) (acc : List Char) (c : Char) (cs : List Char)
    (h : plainChar c = true) :
    splitGo ir acc (c :: cs) = splitGo false (c :: acc) cs := by
  have h1 : c ≠ '\n' := by simp [plainChar] at h; tauto
  have h2 : c ≠ '<' := by simp [plainChar] at h; tauto
  have h3 : c ≠ '&' := by simp [plainChar] at h; tauto
  simp [splitGo, h1, h2, h3]

theorem splitGo_token_inRun (t : List Char) (ht : DelimToken t)
    (acc rest : List Char) :
    splitGo true acc (t ++ rest) = splitGo true acc rest := by
  cases ht with
  | lf => simp [splitGo]
  | br c1 c2 hbr => simp [splitGo, hbr]
  | nbsp c1 c2 c3 c4 hn => simp [splitGo, hn]

theorem splitGo_token_start (t : List Char) (ht : DelimToken t)
    (acc rest : List Char) :
    splitGo false acc (t ++ rest) = acc.reverse :: splitGo true [] rest := by
  cases ht with
  | lf => simp [splitGo]
  | br c1 c2 hbr => simp [splitGo, hbr]
  | nbsp c1 c2 c3 c4 hn => simp [splitGo, hn]

theorem splitGo_run_inRun (r : List Char) (hr : DelimRun r) (acc rest : List Char) :
    splitGo true acc (r ++ rest) = splitGo true acc rest := by
  induction hr generalizing rest with
  | single t ht => exact splitGo_token_inRun t ht acc rest
  | cons t r2 ht hr2 ih =>
    rw [List.append_assoc, splitGo_token_inRun t ht acc (r2 ++ rest), ih rest]

theorem splitGo_run_start (r : List Char) (hr : DelimRun r) (acc rest : List Char) :
    splitGo false acc (r ++ rest) = acc.reverse :: splitGo true [] rest := by
  induction hr generalizing rest with
  | single t ht => exact splitGo_token_start t ht acc rest
  | cons t r2 ht hr2 ih =>
    rw [List.append_assoc, splitGo_token_start t ht acc (r2 ++ rest),
      splitGo_run_inRun r2 hr2 [] rest]

theorem splitGo_copy (l : List Char) (hl : ∀ c ∈ l, plainChar c = true)
    (hne : l ≠ []) (ir : Bool) (acc rest : List Char) :
    splitGo ir acc (l ++ rest) = splitGo false (l.reverse ++ acc) rest := by
  induction l generalizing ir acc with
  | nil => exact absurd rfl hne
  | cons c cs ih =>
    rw [List.cons_append, splitGo_content ir acc c (cs ++ rest) (hl c (by simp))]
    rcases cs with _ | ⟨c2, cs2⟩
    · simp
    · rw [ih (fun x hx => hl x (by simp [hx])) (by simp) false (c :: acc)]
      simp

/-- Interleave lines with the separator runs between them. -/
def interleave : List (List Char) → List (List Char) → List Char
  | [], _ => []
  | [l], _ => l
  | l :: _, [] => l
  | l :: ls, r :: rs => l ++ r ++ interleave ls rs

theorem splitGo_interleave (runs : List (List Char)) :
    ∀ (lines : List (List Char)) (ir : Bool),
      lines.length = runs.length + 1 →
      (∀ l ∈ lines, l ≠ [] ∧ ∀ c ∈ l, plainChar c = true) →
      (∀ r ∈ runs, DelimRun r) →
      splitGo ir [] (interleave lines runs) = lines := by
  induction runs with
  | nil =>
    intro lines ir hlen hlines _
    rcases lines with _ | ⟨l, ls⟩
    · simp at hlen
    · rcases ls with _ | ⟨l2, ls2⟩
      · show splitGo ir [] l = [l]
        have h2 := splitGo_copy l (hlines l (by simp)).2 (hlines l (by simp)).1 ir [] []
        rw [List.append_nil, List.append_nil] at h2
        rw [h2]
        simp [splitGo]
      · simp at hlen
  | cons r rs ih =>
    intro lines ir hlen hlines hruns
    rcases lines with _ | ⟨l, ls⟩
    · simp at hlen
    · rcases ls with _ | ⟨l2, ls2⟩
      · simp at hlen
      · show splitGo ir [] (l ++ r ++ interleave (l2 :: ls2) rs) = l :: l2 :: ls2
        rw [List.append_assoc]
        rw [splitGo_copy l (hlines l (by simp)).2 (hlines l (by simp)).1 ir []
          (r ++ interleave (l2 :: ls2) rs)]
        rw [List.append_nil]
        rw [splitGo_run_start r (hruns r (by simp)) l.reverse (interleave (l2 :: ls2) rs)]
        rw [List.reverse_reverse]
        rw [ih (l2 :: ls2) true (by simpa using hlen)
          (fun x hx => hlines x (by simp [hx])) (fun x hx => hruns x (by simp [hx]))]

/-- **C6.** The primary split treats one-or-more consecutive delimiter
occurrences (`\n`, literal `<br>`, `&nbsp;`, case insensitive) as a
single boundary: interleaving any non-empty, delimiter-free lines with
arbitrary non-empty delimiter-token runs and splitting recovers exactly
the original lines — every run collapses to one boundary, and repeated
breaks produce no empty lines. -/
theorem c6_delimiter_runs_collapse (lines runs : List (List Char))
    (hlen : lines.length = runs.length + 1)
    (hlines : ∀ l ∈ lines, l ≠ [] ∧ ∀ c ∈ l, plainChar c = true)
    (hruns : ∀ r ∈ runs, DelimRun r) :
    primarySplit (String.mk (interleave lines runs)) = lines.map String.mk := by
  unfold primarySplit
  rw [show (String.mk (interleave lines runs)).data = interleave lines runs from rfl]
  rw [splitGo_interleave runs lines false hlen hlines hruns]

/-- Witness for C6: `"a"` and `"b"` separated by the three-token run
`"\n<br>\n"` split into exactly `["a", "b"]`. -/
theorem c6_delimiter_runs_collapse_witness :
    primarySplit (String.mk (interleave [['a'], ['b']]
        [['\n', '<', 'b', 'r', '>', '\n']])) = [['a'], ['b']].map String.mk ∧
    String.mk (interleave [['a'], ['b']] [['\n', '<', 'b', 'r', '>', '\n']]) =
      "a\n<br>\nb" ∧
    primarySplit "a\n<br>\nb" = ["a", "b"] := by
  refine ⟨c6_delimiter_runs_collapse [['a'], ['b']] [['\n', '<', 'b', 'r', '>', '\n']]
      (by decide) (by decide) ?_, by decide, by decide⟩
  intro r hr
  simp at hr
  subst hr
  exact DelimRun.cons ['\n'] ['<', 'b', 'r', '>', '\n'] DelimToken.lf
    (DelimRun.cons ['<', 'b', 'r', '>'] ['\n'] (DelimToken.br 'b' 'r' (by decide))
      (DelimRun.single ['\n'] DelimToken.lf))

end MiroMarkdown
